import Mathlib

/-
Verification development for the `jelly` initial-conditions generator.

The Python modules `jelly/vector.py`, `jelly/id_assign.py`, `jelly/model.py`
and `jelly/ics.py` are shallowly embedded below.  Mutable objects become
explicit state passing, Python exceptions become `Except PyError`, Python
`float` values are represented by `ℚ` (no float arithmetic is performed by
the embedded code paths; floats are only stored and handed to the `struct`
packers, which are kept abstract), and `struct.pack` byte strings become
`List Nat` (one entry per byte).  CPython object identity is modelled by an
explicit identity component where it matters (`Cell.oid`, and the `pyIs`
parameter of the generic ID-range operations).
-/

namespace Jelly

/-- Python exceptions raised by the embedded code paths. -/
inductive PyError where
  | rangeExhaustedError
  | duplicateObject
  | invalidCategory
  | paddingTooSmall
  | typeError
  | structError
  | dimensionalityError
  deriving DecidableEq

/-- Little-endian byte representation of `v` on `w` bytes (`v` taken mod `256^w`). -/
def bytesLE : Nat → Nat → List Nat
  | 0, _ => []
  | w + 1, v => (v % 256) :: bytesLE w (v / 256)

/-- Embeds `struct.pack('i', n)`: 4 bytes, little endian, two's complement. -/
def packI4 (n : Int) : List Nat :=
  bytesLE 4 ((n % 4294967296).toNat)

/-- Embeds `struct.pack('I', n)`: 4 little-endian bytes for `0 <= n < 2^32`,
and `struct.error` for an out-of-range argument (never a silent wraparound). -/
def packU4 (n : Nat) : Except PyError (List Nat) :=
  if n < 4294967296 then .ok (bytesLE 4 n) else .error .structError

/-- Embeds `struct.pack('L', n)` (8 bytes on the 64-bit platforms the code targets). -/
def packL8 (n : Nat) : List Nat :=
  bytesLE 8 (n % 18446744073709551616)

/-- Embeds `make_f77_block` from `jelly/ics.py`.  The `pad` argument is optional;
Python's truthiness test `if pad:` sends both `None` and `0` to the unpadded
branch. -/
def make_f77_block (raw : List Nat) (pad : Option Int) : Except PyError (List Nat) :=
  match pad with
  | some p =>
    if p = 0 then
      .ok (packI4 (raw.length : Int) ++ raw ++ packI4 (raw.length : Int))
    else if p < (raw.length : Int) then
      .error .paddingTooSmall
    else
      .ok (packI4 p ++ raw ++ List.replicate (p - (raw.length : Int)).toNat 0 ++ packI4 p)
  | none => .ok (packI4 (raw.length : Int) ++ raw ++ packI4 (raw.length : Int))

/-- Shape of an unpadded F77 block: length prefix, payload, length suffix. -/
def f77Plain (raw : List Nat) : List Nat :=
  packI4 (raw.length : Int) ++ raw ++ packI4 (raw.length : Int)

/-- Embeds the `Vector` class of `jelly/vector.py` (an immutable tuple of floats). -/
structure Vector where
  values : List ℚ
  deriving DecidableEq

/-- Embeds `Vector.__add__`: `_assert_same_dimensionality` then component-wise sum. -/
def Vector.add (a b : Vector) : Except PyError Vector :=
  if a.values.length ≠ b.values.length then .error .dimensionalityError
  else .ok ⟨List.zipWith (fun x y => x + y) a.values b.values⟩

/-- Embeds `Vector.__sub__`: `_assert_same_dimensionality` then component-wise difference. -/
def Vector.sub (a b : Vector) : Except PyError Vector :=
  if a.values.length ≠ b.values.length then .error .dimensionalityError
  else .ok ⟨List.zipWith (fun x y => x - y) a.values b.values⟩

/-- Embeds the module-level `dot` of `jelly/vector.py`. -/
def dot (v1 v2 : Vector) : Except PyError ℚ :=
  if v1.values.length ≠ v2.values.length then .error .dimensionalityError
  else .ok (List.zipWith (fun x y => x * y) v1.values v2.values).sum

/-- Embeds the `IDRange` class of `jelly/id_assign.py`.  The dict `_map` becomes
an insertion-ordered association list from assigned IDs to objects; `end` is
renamed `stop` (Lean keyword). -/
structure IDRange (α : Type) where
  start : Nat
  stop : Nat
  state : Nat
  map : List (Nat × α)
  deriving DecidableEq

/-- Embeds `IDRange.__init__`. -/
def IDRange.make (s e : Nat) : IDRange α :=
  ⟨s, e, s, []⟩

/-- Embeds `IDRange.assign_id`.  The duplicate test `obj in six.itervalues(self._map)`
uses Python membership semantics: identity (`is`) or `==`; both comparisons are
passed in explicitly (`pyIs`, `pyEqOp`) since `==` depends on the object type. -/
def IDRange.assign_id (pyIs pyEqOp : α → α → Bool) (r : IDRange α) (obj : α) :
    Except PyError (IDRange α) :=
  if r.stop < r.state then .error .rangeExhaustedError
  else if r.map.any (fun kv => pyIs obj kv.2 || pyEqOp obj kv.2) then .error .duplicateObject
  else .ok ⟨r.start, r.stop, r.state + 1, r.map ++ [(r.state, obj)]⟩

/-- Embeds `IDRange.get_id`: scan the map in insertion order for an entry whose
value `is` the object (identity only), returning its key. -/
def IDRange.get_id (pyIs : α → α → Bool) (r : IDRange α) (obj : α) : Option Nat :=
  (r.map.find? (fun kv => pyIs kv.2 obj)).map Prod.fst

/-- Embeds `IDRange.get_object`: dict lookup by key. -/
def IDRange.get_object (r : IDRange α) (object_id : Nat) : Option α :=
  (r.map.find? (fun kv => kv.1 == object_id)).map Prod.snd

/-- Embeds the `Cell` class of `jelly/model.py`.  `oid` models CPython object
identity (`id(cell)`); `Cell` defines no `__eq__`, so both `is` and `==` on
cells compare `oid`. -/
structure Cell where
  oid : Nat
  position : Vector
  velocity : Vector
  density : ℚ
  internal_energy : ℚ
  category : String
  ident : Option Nat
  deriving DecidableEq

/-- Python `is` (and default `==`) on `Cell` objects: identity comparison. -/
def cellIs (a b : Cell) : Bool :=
  a.oid == b.oid

/-- Embeds `DefaultIDRangeDispatcher.__init__` state: the three component ranges. -/
structure DefaultIDRangeDispatcher where
  standard_range : IDRange Cell
  solid_adjacent_range : IDRange Cell
  solid_range : IDRange Cell
  deriving DecidableEq

/-- The dispatcher built with no overrides: `IDRange(1, 29999999)`,
`IDRange(30000000, 39999999)`, `IDRange(40000000, 49999999)`. -/
def DefaultIDRangeDispatcher.make : DefaultIDRangeDispatcher :=
  ⟨IDRange.make 1 29999999, IDRange.make 30000000 39999999, IDRange.make 40000000 49999999⟩

/-- Names the three component ranges of the default dispatcher; `dispatch`
returns one of these selectors so that the mutation of the selected range can
be written as a functional update. -/
inductive RangeSel where
  | standard
  | solidAdjacent
  | solid
  deriving DecidableEq

/-- Embeds `DefaultIDRangeDispatcher.dispatch` (the category tests, in source order). -/
def DefaultIDRangeDispatcher.dispatch (cell : Cell) : Except PyError RangeSel :=
  if cell.category == "nbody" || cell.category == "normal" then .ok .standard
  else if cell.category == "solid" then .ok .solid
  else if cell.category == "solid_adjacent" then .ok .solidAdjacent
  else .error .invalidCategory

/-- Projects the component range named by a selector. -/
def DefaultIDRangeDispatcher.getRange (d : DefaultIDRangeDispatcher) : RangeSel → IDRange Cell
  | .standard => d.standard_range
  | .solidAdjacent => d.solid_adjacent_range
  | .solid => d.solid_range

/-- Replaces the component range named by a selector (models in-place mutation). -/
def DefaultIDRangeDispatcher.setRange (d : DefaultIDRangeDispatcher) :
    RangeSel → IDRange Cell → DefaultIDRangeDispatcher
  | .standard, r => ⟨r, d.solid_adjacent_range, d.solid_range⟩
  | .solidAdjacent, r => ⟨d.standard_range, r, d.solid_range⟩
  | .solid, r => ⟨d.standard_range, d.solid_adjacent_range, r⟩

/-- Embeds the `CompoundIDRange` class of `jelly/id_assign.py`, specialised to
the default dispatcher type used by the writer. -/
structure CompoundIDRange where
  dispatcher : DefaultIDRangeDispatcher
  deriving DecidableEq

/-- Embeds `CompoundIDRange.assign_id`: dispatch on the object's category and
assign inside the selected sub-range. -/
def CompoundIDRange.assign_id (r : CompoundIDRange) (obj : Cell) :
    Except PyError CompoundIDRange :=
  match DefaultIDRangeDispatcher.dispatch obj with
  | .error e => .error e
  | .ok sel =>
    match (r.dispatcher.getRange sel).assign_id cellIs cellIs obj with
    | .error e => .error e
    | .ok sub => .ok ⟨r.dispatcher.setRange sel sub⟩

/-- Embeds `CompoundIDRange.get_id`: probe the dispatcher's `components` in
their source order (standard, solid, solid_adjacent), returning the first hit. -/
def CompoundIDRange.get_id (r : CompoundIDRange) (obj : Cell) : Option Nat :=
  match r.dispatcher.standard_range.get_id cellIs obj with
  | some i => some i
  | none =>
    match r.dispatcher.solid_range.get_id cellIs obj with
    | some i => some i
    | none => r.dispatcher.solid_adjacent_range.get_id cellIs obj

/-- The `for cell in cells: id_range.assign_id(cell)` loop of `assign_ids`. -/
def assignAll : CompoundIDRange → List Cell → Except PyError CompoundIDRange
  | r, [] => .ok r
  | r, c :: cs =>
    match r.assign_id c with
    | .error e => .error e
    | .ok r₂ => assignAll r₂ cs

/-- Embeds `assign_ids` of `jelly/ics.py`.  The source rebinds its `id_range`
parameter to a fresh `CompoundIDRange(DefaultIDRangeDispatcher())` before the
loop, so the argument is never read. -/
def assign_ids (cells : List Cell) (id_range : Option CompoundIDRange) :
    Except PyError CompoundIDRange :=
  match id_range with
  | _ => assignAll ⟨DefaultIDRangeDispatcher.make⟩ cells

/-- Embeds `iterate_ids`: map `get_id` over the cells. -/
def iterate_ids (cells : List Cell) (id_range : CompoundIDRange) : List (Option Nat) :=
  cells.map id_range.get_id

/-- A loop applying a fallible operation to each element in order, stopping at
the first raised exception (the effect of iterating in Python). -/
def exceptMap (f : α → Except PyError β) : List α → Except PyError (List β)
  | [] => .ok []
  | x :: xs =>
    match f x with
    | .error e => .error e
    | .ok y =>
      match exceptMap f xs with
      | .error e => .error e
      | .ok ys => .ok (y :: ys)

/-- Embeds `get_type_of_cell` of `jelly/ics.py`. -/
def get_type_of_cell (cell : Cell) : Except PyError Nat :=
  if cell.category == "normal" || cell.category == "solid" || cell.category == "solid_adjacent"
  then .ok 0
  else if cell.category == "nbody" then .ok 4
  else .error .invalidCategory

/-- Total version of the sort key `get_type_of_cell`.  `write_icfile` evaluates
the key on every cell inside `sorted`, raising on an invalid category; the
embedding checks all categories first (`List.mapM get_type_of_cell`), after
which this total key agrees with the source on every cell that is sorted. -/
def typeKey (cell : Cell) : Nat :=
  match get_type_of_cell cell with
  | .ok n => n
  | .error _ => 0

/-- Inserts an element after all elements of no-greater key: the insertion step
of a stable sort. -/
def stableInsert (key : α → Nat) : List α → α → List α
  | [], c => [c]
  | b :: bs, c => if key b ≤ key c then b :: stableInsert key bs c else c :: b :: bs

/-- Embeds Python's builtin `sorted(xs, key=key)`: a stable sort by key. -/
def pySorted (key : α → Nat) (l : List α) : List α :=
  l.foldl (stableInsert key) []

/-- Embeds `count_types`: a six-slot counter incremented at each cell's type. -/
def count_types (cells : List Cell) : List Nat :=
  cells.foldl
    (fun acc c => acc.set (typeKey c) (acc.getD (typeKey c) 0 + 1))
    (List.replicate 6 0)

/-- Embeds `map_quantity` (projection of one named attribute over the cell list). -/
def map_quantity (cells : List Cell) (getter : Cell → β) : List β :=
  cells.map getter

section Packing

variable (packF packD : ℚ → List Nat)

/-- The `inner` bytearray assembled by `make_header` of `jelly/ics.py`, named
so the framing step can be reasoned about separately.  `packF` and `packD`
stand for `struct.pack('f', ·)` and `struct.pack('d', ·)`; the IEEE-754
encoding itself is left abstract.  Integer fields are packed concretely. -/
def header_inner (n_part : List Nat) (mass_arr : List ℚ) (time redshift : ℚ)
    (flag_sfr flag_feedback : Int) (n_all : List Nat) (flag_cooling num_files : Int)
    (box_size omega0 omega_lambda hubble_parameter : ℚ)
    (flag_stellarage flag_metals flag_entropy_instead_u flag_doubleprecision flag_lpt_ics : Int)
    (lpt_scalingfactor : ℚ) (flag_tracer_field composition_vector_length : Int) : List Nat :=
  let n_all_binary := n_all.map packL8
  let n_all_binary_lower := (n_all_binary.map (List.take 4)).flatten
  let n_all_binary_higher := (n_all_binary.map (List.drop 4)).flatten
  (n_part.map (fun n => packI4 (Int.ofNat n))).flatten
  ++ (mass_arr.map packD).flatten
  ++ packD time ++ packD redshift ++ packI4 flag_sfr ++ packI4 flag_feedback
  ++ n_all_binary_lower
  ++ packI4 flag_cooling ++ packI4 num_files ++ packD box_size
  ++ packD omega0 ++ packD omega_lambda ++ packD hubble_parameter
  ++ packI4 flag_stellarage ++ packI4 flag_metals
  ++ n_all_binary_higher
  ++ packI4 flag_entropy_instead_u ++ packI4 flag_doubleprecision ++ packI4 flag_lpt_ics
  ++ packF lpt_scalingfactor ++ packI4 flag_tracer_field ++ packI4 composition_vector_length

/-- Embeds `make_header`: assemble the inner bytearray and F77-wrap it with a
fixed pad of 256 bytes. -/
def make_header (n_part : List Nat) (mass_arr : List ℚ) (time redshift : ℚ)
    (flag_sfr flag_feedback : Int) (n_all : List Nat) (flag_cooling num_files : Int)
    (box_size omega0 omega_lambda hubble_parameter : ℚ)
    (flag_stellarage flag_metals flag_entropy_instead_u flag_doubleprecision flag_lpt_ics : Int)
    (lpt_scalingfactor : ℚ) (flag_tracer_field composition_vector_length : Int) :
    Except PyError (List Nat) :=
  make_f77_block
    (header_inner packF packD n_part mass_arr time redshift flag_sfr flag_feedback n_all
      flag_cooling num_files box_size omega0 omega_lambda hubble_parameter flag_stellarage
      flag_metals flag_entropy_instead_u flag_doubleprecision flag_lpt_ics lpt_scalingfactor
      flag_tracer_field composition_vector_length)
    (some 256)

/-- Embeds `make_default_header`.  All parameters are positional here; the
source's defaults (`time=0.0, redshift=0.0, flag_sfr=0, flag_feedback=0,
flag_cooling=0, box_size=1.0, omega0=1.0, omega_lambda=0.0,
hubble_parameter=70.0, flag_stellarage=0, flag_metals=0,
flag_entropy_instead_u=0, flag_doubleprecision=0, flag_lpt_ics=0,
lpt_scalingfactor=1.0, flag_tracer_field=0, composition_vector_length=0`)
are written out at each call site, in this parameter order. -/
def make_default_header (n_types : List Nat) (time redshift : ℚ)
    (flag_sfr flag_feedback flag_cooling : Int) (box_size omega0 omega_lambda hubble_parameter : ℚ)
    (flag_stellarage flag_metals flag_entropy_instead_u flag_doubleprecision flag_lpt_ics : Int)
    (lpt_scalingfactor : ℚ) (flag_tracer_field composition_vector_length : Int) :
    Except PyError (List Nat) :=
  make_header packF packD n_types (List.replicate 6 0) time redshift flag_sfr flag_feedback
    n_types flag_cooling 1 box_size omega0 omega_lambda hubble_parameter flag_stellarage
    flag_metals flag_entropy_instead_u flag_doubleprecision flag_lpt_ics lpt_scalingfactor
    flag_tracer_field composition_vector_length

end Packing

/-- Embeds `make_body`.  Both branches of the source (single-character format
versus tuple format) call `struct.pack` once per datum inside the loop, so a
`struct.error` raised by any datum aborts the block; `packDatum` is that
fallible per-datum pack (`struct.pack(fmt, datum)` or
`struct.pack(fmt, *datum)`). -/
def make_body (packDatum : α → Except PyError (List Nat)) (data : List α) :
    Except PyError (List Nat) :=
  match exceptMap packDatum data with
  | .error e => .error e
  | .ok chunks => make_f77_block chunks.flatten none

/-- `struct.pack('I', ·)` applied to the result of `get_id`: packing `None`
raises a `TypeError`; an out-of-range int raises `struct.error` via `packU4`. -/
def pack_id (i : Option Nat) : Except PyError (List Nat) :=
  match i with
  | some n => packU4 n
  | none => .error .typeError

/-- The identifier body block: `make_body('I', iterate_ids(...))`. -/
def make_body_ids (ids : List (Option Nat)) : Except PyError (List Nat) :=
  match exceptMap pack_id ids with
  | .error e => .error e
  | .ok bs => make_f77_block bs.flatten none

/-- `struct.pack('fff'/'ddd', *datum)`: the three-character format packs one
scalar per component and raises `struct.error` unless the unpacked vector has
exactly 3 items. -/
def packVec (packScal : ℚ → List Nat) (v : Vector) : Except PyError (List Nat) :=
  if v.values.length = 3 then .ok ((v.values.map packScal).flatten)
  else .error .structError

/-- `struct.pack('f'/'d', datum)`: packing one float scalar always succeeds;
the byte encoding itself is the abstract packer. -/
def packScal (packOne : ℚ → List Nat) : ℚ → Except PyError (List Nat) :=
  fun q => .ok (packOne q)

/-- Embeds `write_icfile` of `jelly/ics.py`.  The result is the list of chunks
passed to `file_like.write`, in order.  Note the header call: the source
passes `boxsize` as the second positional argument of `make_default_header`,
which is its `time` parameter, and `box_size` keeps its default `1.0`. -/
def write_icfile (packF packD : ℚ → List Nat) (cells : List Cell)
    (id_range : Option CompoundIDRange) (boxsize : ℚ) (double : Bool) :
    Except PyError (List (List Nat)) :=
  match exceptMap get_type_of_cell cells with
  | .error e => .error e
  | .ok _ =>
    let scells := pySorted typeKey cells
    match (match id_range with
           | none => assign_ids scells none
           | some r => .ok r : Except PyError CompoundIDRange) with
    | .error e => .error e
    | .ok idr =>
      let ntypes := count_types scells
      let fv := if double then packD else packF
      match make_default_header packF packD ntypes boxsize 0 0 0 0 1 1 0 70 0 0 0
          (if double then 1 else 0) 0 1 0 0 with
      | .error e => .error e
      | .ok header =>
        match make_body (packVec fv) (map_quantity scells Cell.position) with
        | .error e => .error e
        | .ok pos =>
          match make_body (packVec fv) (map_quantity scells Cell.velocity) with
          | .error e => .error e
          | .ok vel =>
            match make_body_ids (iterate_ids scells idr) with
            | .error e => .error e
            | .ok ids =>
              match make_body (packScal fv) (map_quantity scells Cell.density) with
              | .error e => .error e
              | .ok rho =>
                match make_body (packScal fv)
                    (map_quantity (scells.take (ntypes.getD 0 0)) Cell.internal_energy) with
                | .error e => .error e
                | .ok u =>
                  match make_body (packScal fv)
                      (map_quantity (scells.take (ntypes.getD 0 0)) Cell.density) with
                  | .error e => .error e
                  | .ok rho2 => .ok [header, pos, vel, ids, rho, u, rho2]

/-- Embeds the `Gas` interface of `jelly/model.py`: three fields of position. -/
structure Gas where
  velocity : Vector → Vector
  density : Vector → ℚ
  internal_energy : Vector → ℚ

/-- Embeds `Gas.create_cell`.  Mesh-built cells are never compared by identity
in the claims settled here, so they all carry identity component `0`. -/
def Gas.create_cell (g : Gas) (position : Vector) (category : String) : Cell :=
  ⟨0, position, g.velocity position, g.density position, g.internal_energy position,
    category, none⟩

/-- Embeds `UniformGas(velocity, density, internal_energy)`. -/
def UniformGas (velocity : Vector) (density internal_energy : ℚ) : Gas :=
  ⟨fun _ => velocity, fun _ => density, fun _ => internal_energy⟩

/-- Embeds `UniformGas()` with its default arguments. -/
def uniformGasDefault : Gas :=
  UniformGas ⟨[0, 0, 0]⟩ 1 1

/-- Embeds the `Obstacle` interface: the `inside` predicate plus the `fluids`
and `solids` point sequences consumed by `make_obstacle_cells`. -/
structure Obstacle where
  inside : Vector → Bool
  fluids : List Vector
  solids : List Vector

/-- Embeds `approximate_gas` of `jelly/model.py`.  `if obstacles:` is Python
truthiness: both `None` and the empty list leave `valid = True`. -/
def approximate_gas (gas : Gas) (grid : List Vector) (obstacles : Option (List Obstacle)) :
    List Cell :=
  grid.filterMap (fun grid_point =>
    let valid :=
      match obstacles with
      | none => true
      | some obs => if obs.isEmpty then true else !(obs.any (fun o => o.inside grid_point))
    if valid then some (gas.create_cell grid_point "normal") else none)

/-- Embeds `make_obstacle_cells`: `(fluids, solids)`, the fluid cells from the
background gas with category `solid_adjacent`, the solid cells from a default
`UniformGas()` with category `solid`. -/
def make_obstacle_cells (obstacle : Obstacle) (background_gas : Gas) :
    List Cell × List Cell :=
  (obstacle.fluids.map (fun x => background_gas.create_cell x "solid_adjacent"),
   obstacle.solids.map (fun x => uniformGasDefault.create_cell x "solid"))

/-- Embeds `make_mesh`: filtered primary cells, then per obstacle its fluid
cells chained with its solid cells, then the extra sources joined. -/
def make_mesh (gas : Gas) (grid : List Vector) (obstacles : Option (List Obstacle))
    (extras : Option (List (List Cell))) : List Cell :=
  approximate_gas gas grid obstacles
  ++ ((obstacles.getD []).map (fun obstacle =>
        (make_obstacle_cells obstacle gas).1 ++ (make_obstacle_cells obstacle gas).2)).flatten
  ++ (extras.getD []).flatten

/-- Modelled from the spec (§3 Mesh, §4.3): the cell sequence as the spec words
it — primary-source cells whose position is outside every obstacle, then each
obstacle's fluid and solid cells in obstacle-list order, then each extra
source's cells in list order.  Used as the comparison point for `make_mesh`. -/
def meshCellsSpec (gas : Gas) (grid : List Vector) (obstacles : Option (List Obstacle))
    (extras : Option (List (List Cell))) : List Cell :=
  ((grid.filter (fun p => (obstacles.getD []).all (fun o => !(o.inside p)))).map
      (fun p => gas.create_cell p "normal"))
  ++ ((obstacles.getD []).map (fun o =>
        o.fluids.map (fun x => gas.create_cell x "solid_adjacent")
        ++ o.solids.map (fun x => uniformGasDefault.create_cell x "solid"))).flatten
  ++ (extras.getD []).flatten

/-- Python `is` on value-class objects modelled as (identity, value) pairs:
two objects are the same iff both components agree. -/
def pyIsPair (a b : Nat × Nat) : Bool :=
  a == b

/-- Python `==` on a value class (such as `jelly`'s `Vector`, or a tuple):
structural comparison of the value component only. -/
def pyEqValuePair (a b : Nat × Nat) : Bool :=
  a.2 == b.2

/-- Repeated `assign_id` calls on one range, stopping at the first exception. -/
def assignList (pyIs pyEqOp : α → α → Bool) : IDRange α → List α → Except PyError (IDRange α)
  | r, [] => .ok r
  | r, o :: os =>
    match IDRange.assign_id pyIs pyEqOp r o with
    | .error e => .error e
    | .ok r₂ => assignList pyIs pyEqOp r₂ os

/-- A concrete float packer of width 4 used by the closed witnesses. -/
def packF0 : ℚ → List Nat :=
  fun _ => [0, 0, 0, 0]

/-- A concrete double packer of width 8 used by the closed witnesses: the first
byte carries the numerator (mod 256), so small distinct numerals stay
distinguishable. -/
def packD0 : ℚ → List Nat :=
  fun q => [q.num.natAbs % 256, 0, 0, 0, 0, 0, 0, 0]

/-- Lower bound of the ID band selected by a selector, as fixed by
`DefaultIDRangeDispatcher.__init__`. -/
def bandLo : RangeSel → Nat
  | .standard => 1
  | .solidAdjacent => 30000000
  | .solid => 40000000

/-- Upper bound of the ID band selected by a selector. -/
def bandHi : RangeSel → Nat
  | .standard => 29999999
  | .solidAdjacent => 39999999
  | .solid => 49999999

/-- Invariant of one component `IDRange` during default ID assignment: its
bounds are the band's, the cursor stays inside `start..stop + 1`, all
assigned keys lie in `start..cursor - 1` and are distinct, and the stored
objects have pairwise-distinct identities. -/
structure RInv (sel : RangeSel) (r : IDRange Cell) : Prop where
  hstart : r.start = bandLo sel
  hstop : r.stop = bandHi sel
  hlo : r.start ≤ r.state
  hhi : r.state ≤ r.stop + 1
  hkeys : ∀ kv ∈ r.map, r.start ≤ kv.1 ∧ kv.1 < r.state
  hkeysN : (r.map.map Prod.fst).Nodup
  hoidsN : (r.map.map (fun kv => kv.2.oid)).Nodup

/-- Invariant of the compound range during default ID assignment, relative to
the set `S` of already-assigned cells: each component satisfies its band
invariant, every stored object is an assigned cell dispatched to the range
that stores it, and every assigned cell is stored (by identity) in the range
its category dispatches to. -/
structure DInv (S : Cell → Prop) (d : CompoundIDRange) : Prop where
  rinv : ∀ sel, RInv sel (d.dispatcher.getRange sel)
  prov : ∀ sel, ∀ kv ∈ (d.dispatcher.getRange sel).map,
    S kv.2 ∧ DefaultIDRangeDispatcher.dispatch kv.2 = .ok sel
  pres : ∀ c, S c → ∃ sel, DefaultIDRangeDispatcher.dispatch c = .ok sel ∧
    ∃ kv ∈ (d.dispatcher.getRange sel).map, kv.2.oid = c.oid

/-- The type-0 cells followed by the type-4 cells, each group in buffer order:
the content of the stable sort performed by the writer. -/
def sortedByType (cells : List Cell) : List Cell :=
  cells.filter (fun c => typeKey c == 0) ++ cells.filter (fun c => typeKey c == 4)

/-- A solid cell with identity 1 and 3-component vectors, input of the closed
assignment and writer witnesses. -/
def cellSolidW : Cell :=
  ⟨1, ⟨[0, 0, 0]⟩, ⟨[0, 0, 0]⟩, 1, 1, "solid", none⟩

/-- A normal cell with identity 2 and 3-component vectors, input of the closed
assignment and writer witnesses. -/
def cellNormalW : Cell :=
  ⟨2, ⟨[0, 0, 0]⟩, ⟨[0, 0, 0]⟩, 1, 1, "normal", none⟩

/-- The compound range state after assigning `[cellSolidW, cellNormalW]`. -/
def compoundW : CompoundIDRange :=
  ⟨⟨⟨1, 29999999, 2, [(1, cellNormalW)]⟩,
    ⟨30000000, 39999999, 30000000, []⟩,
    ⟨40000000, 49999999, 40000001, [(40000000, cellSolidW)]⟩⟩⟩

/-- Index access of a `zipWith`, stated with `getD` for binder-free indexing. -/
theorem zipWith_getD (f : ℚ → ℚ → ℚ) :
    ∀ (xs ys : List ℚ) (i : Nat), i < xs.length → i < ys.length →
      (List.zipWith f xs ys).getD i 0 = f (xs.getD i 0) (ys.getD i 0) := by
  intro xs
  induction xs with
  | nil => intro ys i h _; simp at h
  | cons x xs ih =>
    intro ys i h1 h2
    cases ys with
    | nil => simp at h2
    | cons y ys =>
      cases i with
      | zero => simp
      | succ i =>
        simp only [List.zipWith_cons_cons, List.getD_cons_succ]
        exact ih ys i (by simpa using h1) (by simpa using h2)

/-- C9.  For vectors of unequal length, `add`, `sub` and `dot` all fail with
the dimensionality error; for vectors of equal length they succeed
component-wise (sum, difference, and sum of products respectively), with no
padding or truncation. -/
theorem vector_ops_dimensionality (a b : Vector) :
    (a.values.length ≠ b.values.length →
      Vector.add a b = .error .dimensionalityError ∧
      Vector.sub a b = .error .dimensionalityError ∧
      dot a b = .error .dimensionalityError) ∧
    (a.values.length = b.values.length →
      (∃ v, Vector.add a b = .ok v ∧ v.values.length = a.values.length ∧
        ∀ i, i < a.values.length →
          v.values.getD i 0 = a.values.getD i 0 + b.values.getD i 0) ∧
      (∃ v, Vector.sub a b = .ok v ∧ v.values.length = a.values.length ∧
        ∀ i, i < a.values.length →
          v.values.getD i 0 = a.values.getD i 0 - b.values.getD i 0) ∧
      dot a b = .ok (List.zipWith (fun x y => x * y) a.values b.values).sum) := by
  constructor
  · intro h
    refine ⟨?_, ?_, ?_⟩ <;> simp [Vector.add, Vector.sub, dot, h]
  · intro h
    refine ⟨⟨⟨List.zipWith (fun x y => x + y) a.values b.values⟩, ?_, ?_, ?_⟩,
      ⟨⟨List.zipWith (fun x y => x - y) a.values b.values⟩, ?_, ?_, ?_⟩, ?_⟩
    · simp [Vector.add, h]
    · simp [List.length_zipWith, h]
    · intro i hi
      exact zipWith_getD _ a.values b.values i hi (h ▸ hi)
    · simp [Vector.sub, h]
    · simp [List.length_zipWith, h]
    · intro i hi
      exact zipWith_getD _ a.values b.values i hi (h ▸ hi)
    · simp [dot, h]

/-- Witness for C9 at concrete vectors of lengths 2/1 (failure) and 2/2 (success). -/
theorem vector_ops_dimensionality_witness :
    Vector.add ⟨[1, 2]⟩ ⟨[3]⟩ = .error .dimensionalityError ∧
    dot ⟨[1, 2]⟩ ⟨[4, 5]⟩ = .ok 14 := by
  constructor
  · exact ((vector_ops_dimensionality ⟨[1, 2]⟩ ⟨[3]⟩).1 (by decide)).1
  · have h := ((vector_ops_dimensionality ⟨[1, 2]⟩ ⟨[4, 5]⟩).2 (by decide)).2.2
    rw [h]
    norm_num

/-- C10.  `assign_ids` rebinds its `id_range` parameter before use: its result
is the fold of `CompoundIDRange.assign_id` from a fresh default dispatcher,
whatever argument is passed, so the dispatcher cannot be overridden through
this function. -/
theorem assign_ids_ignores_id_range_argument (cells : List Cell)
    (arg₁ arg₂ : Option CompoundIDRange) :
    assign_ids cells arg₁ = assignAll ⟨DefaultIDRangeDispatcher.make⟩ cells ∧
    assign_ids cells arg₁ = assign_ids cells arg₂ :=
  ⟨rfl, rfl⟩

/-- Counterexample for C2.  Against a range already holding the object
`(0, 5)`, assigning the object `(1, 5)` — distinct identity, equal value —
fails with the duplicate error instead of being accepted with a fresh ID:
the membership test `obj in six.itervalues(self._map)` compares with `==`,
not only with `is`. -/
theorem assign_id_rejects_value_equal_distinct_object :
    IDRange.assign_id pyIsPair pyEqValuePair (IDRange.make 1 10) (0, 5)
      = .ok ⟨1, 10, 2, [(1, (0, 5))]⟩ ∧
    IDRange.assign_id pyIsPair pyEqValuePair ⟨1, 10, 2, [(1, (0, 5))]⟩ (1, 5)
      = .error .duplicateObject := by
  constructor <;> rfl

/-- C2 as amended.  In a non-exhausted range, `assign_id` fails with the
duplicate error iff the range already holds an object that is identical
(`is`) or value-equal (`==`) to the new object; otherwise the object is
accepted, mapped from the current cursor, and the cursor advances. -/
theorem assign_id_duplicate_detection {α : Type} (pyIs pyEqOp : α → α → Bool)
    (r : IDRange α) (obj : α) (h : r.state ≤ r.stop) :
    (IDRange.assign_id pyIs pyEqOp r obj = .error .duplicateObject ↔
      r.map.any (fun kv => pyIs obj kv.2 || pyEqOp obj kv.2) = true) ∧
    (r.map.any (fun kv => pyIs obj kv.2 || pyEqOp obj kv.2) = false →
      IDRange.assign_id pyIs pyEqOp r obj
        = .ok ⟨r.start, r.stop, r.state + 1, r.map ++ [(r.state, obj)]⟩) := by
  have hx : ¬ r.stop < r.state := by omega
  rcases hdup : r.map.any (fun kv => pyIs obj kv.2 || pyEqOp obj kv.2) with _ | _ <;>
    simp [IDRange.assign_id, hx, hdup]

/-- Witness for C2's amended theorem on a fresh two-slot range over `Nat` pairs. -/
theorem assign_id_duplicate_detection_witness :
    (IDRange.assign_id pyIsPair pyEqValuePair (IDRange.make 3 4) (7, 7)
        = .error .duplicateObject ↔
      (IDRange.make 3 4 : IDRange (Nat × Nat)).map.any
        (fun kv => pyIsPair (7, 7) kv.2 || pyEqValuePair (7, 7) kv.2) = true) ∧
    ((IDRange.make 3 4 : IDRange (Nat × Nat)).map.any
        (fun kv => pyIsPair (7, 7) kv.2 || pyEqValuePair (7, 7) kv.2) = false →
      IDRange.assign_id pyIsPair pyEqValuePair (IDRange.make 3 4) (7, 7)
        = .ok ⟨3, 4, 4, [(3, (7, 7))]⟩) :=
  assign_id_duplicate_detection pyIsPair pyEqValuePair (IDRange.make 3 4) (7, 7) (by decide)

/-- A run of assignments of pairwise-distinct objects that fits in the
remaing capacity of the range succeeds, advancing the cursor once per object. -/
theorem assignList_ok {α : Type} (pyIs pyEqOp : α → α → Bool) :
    ∀ (objs : List α) (r : IDRange α),
      (∀ o ∈ objs, r.map.any (fun kv => pyIs o kv.2 || pyEqOp o kv.2) = false) →
      objs.Pairwise (fun a b => (pyIs b a || pyEqOp b a) = false) →
      r.state + objs.length ≤ r.stop + 1 →
      ∃ r₂, assignList pyIs pyEqOp r objs = .ok r₂ ∧ r₂.state = r.state + objs.length ∧
        r₂.stop = r.stop ∧ r₂.map.length = r.map.length + objs.length := by
  intro objs
  induction objs with
  | nil => intro r _ _ _; exact ⟨r, rfl, by simp, rfl, by simp⟩
  | cons o os ih =>
    intro r hfresh hpair hcap
    have hx : ¬ r.stop < r.state := by simp at hcap; omega
    have hdup : r.map.any (fun kv => pyIs o kv.2 || pyEqOp o kv.2) = false :=
      hfresh o (by simp)
    have hstep : IDRange.assign_id pyIs pyEqOp r o
        = .ok ⟨r.start, r.stop, r.state + 1, r.map ++ [(r.state, o)]⟩ := by
      simp [IDRange.assign_id, hx, hdup]
    have hpair' := List.pairwise_cons.mp hpair
    obtain ⟨r₂, h1, h2, h3, h4⟩ :=
      ih ⟨r.start, r.stop, r.state + 1, r.map ++ [(r.state, o)]⟩
        (by
          intro o' ho'
          simp only [List.any_append, List.any_cons, List.any_nil, Bool.or_false]
          have h₁ := hfresh o' (by simp [ho'])
          have h₂ := hpair'.1 o' ho'
          simp [h₁, h₂])
        hpair'.2
        (by simp at hcap ⊢; omega)
    refine ⟨r₂, ?_, ?_, h3, ?_⟩
    · simp [assignList, hstep, h1]
    · simp at h2 ⊢; omega
    · simp at h4 ⊢; omega

/-- C6.  A range with bounds `start..stop` accepts exactly `stop - start + 1`
assignments of pairwise-distinct objects; once it holds that many objects the
next `assign_id` fails with `RangeExhausted`, and every successful `assign_id`
advances the cursor by exactly one. -/
theorem id_range_capacity {α : Type} (pyIs pyEqOp : α → α → Bool) (start stop : Nat)
    (objs : List α) (hs : start ≤ stop) (hlen : objs.length = stop - start + 1)
    (hdist : objs.Pairwise (fun a b => (pyIs b a || pyEqOp b a) = false)) :
    (∃ r, assignList pyIs pyEqOp (IDRange.make start stop) objs = .ok r ∧
      r.map.length = stop - start + 1 ∧
      ∀ o, IDRange.assign_id pyIs pyEqOp r o = .error .rangeExhaustedError) ∧
    (∀ (r r₂ : IDRange α) (o : α),
      IDRange.assign_id pyIs pyEqOp r o = .ok r₂ → r₂.state = r.state + 1) := by
  constructor
  · obtain ⟨r, h1, h2, h3, h4⟩ :=
      assignList_ok pyIs pyEqOp objs (IDRange.make start stop)
        (by intro o _; rfl) hdist (by simp [IDRange.make, hlen]; omega)
    refine ⟨r, h1, by simpa [IDRange.make, hlen] using h4, ?_⟩
    intro o
    have hexh : r.stop < r.state := by
      simp [IDRange.make, hlen] at h2 h3; omega
    simp [IDRange.assign_id, hexh]
  · intro r r₂ o h
    by_cases hx : r.stop < r.state
    · simp [IDRange.assign_id, hx] at h
    · rcases hdup : r.map.any (fun kv => pyIs o kv.2 || pyEqOp o kv.2) with _ | _
      · simp [IDRange.assign_id, hx, hdup] at h
        rw [← h]
      · simp [IDRange.assign_id, hx, hdup] at h

/-- Witness for C6: a fresh range `3..4` filled by two distinct objects. -/
theorem id_range_capacity_witness :
    (∃ r, assignList pyIsPair pyEqValuePair (IDRange.make 3 4) [(0, 5), (1, 6)] = .ok r ∧
      r.map.length = 4 - 3 + 1 ∧
      ∀ o, IDRange.assign_id pyIsPair pyEqValuePair r o = .error .rangeExhaustedError) ∧
    (∀ (r r₂ : IDRange (Nat × Nat)) (o : Nat × Nat),
      IDRange.assign_id pyIsPair pyEqValuePair r o = .ok r₂ → r₂.state = r.state + 1) :=
  id_range_capacity pyIsPair pyEqValuePair 3 4 [(0, 5), (1, 6)]
    (by decide) (by decide) (by decide)

/-- A `filterMap` whose function is an if-guarded `some` is a `filter`
followed by a `map`. -/
theorem filterMap_if_eq_filter_map (f : α → β) (c : α → Bool) :
    ∀ l : List α, l.filterMap (fun p => if c p then some (f p) else none)
      = (l.filter c).map f := by
  intro l
  induction l with
  | nil => rfl
  | cons x xs ih =>
    by_cases hx : c x <;> simp [List.filterMap_cons, List.filter_cons, hx, ih]

/-- The primary-cell filter of `approximate_gas` is exactly "position outside
every obstacle": the truthiness branches of the source collapse to an
all-quantified negation of `inside`. -/
theorem approximate_gas_eq_filter (gas : Gas) (grid : List Vector)
    (obstacles : Option (List Obstacle)) :
    approximate_gas gas grid obstacles
      = (grid.filter (fun p => (obstacles.getD []).all (fun o => !(o.inside p)))).map
          (fun p => gas.create_cell p "normal") := by
  rw [← filterMap_if_eq_filter_map]
  unfold approximate_gas
  congr 1
  funext p
  cases obstacles with
  | none => rfl
  | some obs =>
    cases obs with
    | nil => rfl
    | cons o os => simp [List.all_eq_not_any_not]

/-- C7.  The mesh's cell list is the order-preserving concatenation of the
primary-source cells whose position is outside every obstacle (a cell is
dropped iff some obstacle's `inside` holds at its position), then each
obstacle's fluid cells followed by its solid cells in obstacle-list order,
then each extra source's cells in list order. -/
theorem make_mesh_eq_spec (gas : Gas) (grid : List Vector)
    (obstacles : Option (List Obstacle)) (extras : Option (List (List Cell))) :
    make_mesh gas grid obstacles extras = meshCellsSpec gas grid obstacles extras := by
  unfold make_mesh meshCellsSpec
  rw [approximate_gas_eq_filter]
  rfl

/-- Length of `bytesLE` is its width argument. -/
theorem bytesLE_length : ∀ (w v : Nat), (bytesLE w v).length = w := by
  intro w
  induction w with
  | zero => intro v; rfl
  | succ w ih => intro v; simp [bytesLE, ih]

/-- Length of a flattened map whose chunks all have length `k`. -/
theorem flatten_map_length_const (f : α → List Nat) (k : Nat) :
    ∀ l : List α, (∀ x ∈ l, (f x).length = k) → ((l.map f).flatten).length = k * l.length := by
  intro l
  induction l with
  | nil => intro _; simp
  | cons x xs ih =>
    intro h
    simp only [List.map_cons, List.flatten_cons, List.length_append, List.length_cons]
    rw [h x (by simp), ih (fun y hy => h y (by simp [hy]))]
    ring

/-- The inner header payload is 216 bytes whenever the array arguments have
the format's six slots and the scalar packers have IEEE widths 4 and 8. -/
theorem header_inner_length (packF packD : ℚ → List Nat)
    (hF : ∀ x, (packF x).length = 4) (hD : ∀ x, (packD x).length = 8)
    (n_part : List Nat) (mass_arr : List ℚ) (time redshift : ℚ)
    (flag_sfr flag_feedback : Int) (n_all : List Nat) (flag_cooling num_files : Int)
    (box_size omega0 omega_lambda hubble_parameter : ℚ)
    (flag_stellarage flag_metals flag_entropy_instead_u flag_doubleprecision flag_lpt_ics : Int)
    (lpt_scalingfactor : ℚ) (flag_tracer_field composition_vector_length : Int)
    (h1 : n_part.length = 6) (h2 : mass_arr.length = 6) (h3 : n_all.length = 6) :
    (header_inner packF packD n_part mass_arr time redshift flag_sfr flag_feedback n_all
      flag_cooling num_files box_size omega0 omega_lambda hubble_parameter flag_stellarage
      flag_metals flag_entropy_instead_u flag_doubleprecision flag_lpt_ics lpt_scalingfactor
      flag_tracer_field composition_vector_length).length = 216 := by
  have hi : ∀ n : Int, (packI4 n).length = 4 := fun n => bytesLE_length 4 _
  have hp : ((n_part.map (fun n => packI4 (Int.ofNat n))).flatten).length = 4 * n_part.length :=
    flatten_map_length_const (fun n : Nat => packI4 (Int.ofNat n)) 4 n_part
      (fun x _ => hi (x : Int))
  have hm : ((mass_arr.map packD).flatten).length = 8 * mass_arr.length :=
    flatten_map_length_const _ 8 _ (fun x _ => hD x)
  have hlow : (((n_all.map packL8).map (List.take 4)).flatten).length
      = 4 * (n_all.map packL8).length := by
    refine flatten_map_length_const _ 4 _ ?_
    intro x hx
    obtain ⟨v, _, rfl⟩ := List.mem_map.mp hx
    simp [packL8, List.length_take, bytesLE_length]
  have hhigh : (((n_all.map packL8).map (List.drop 4)).flatten).length
      = 4 * (n_all.map packL8).length := by
    refine flatten_map_length_const _ 4 _ ?_
    intro x hx
    obtain ⟨v, _, rfl⟩ := List.mem_map.mp hx
    simp [packL8, List.length_drop, bytesLE_length]
  unfold header_inner
  simp only [List.length_append, hp, hm, hlow, hhigh, hi, hF, hD, List.length_map,
    h1, h2, h3]

/-- Padded F77 framing for payloads that fit inside the 256-byte pad. -/
theorem f77_pad256_ok (raw : List Nat) (hr : raw.length ≤ 256) :
    make_f77_block raw (some 256)
      = .ok (packI4 256 ++ raw ++ List.replicate (256 - raw.length) 0 ++ packI4 256) := by
  have h0 : (256 : Int) ≠ 0 := by norm_num
  have hlt : ¬ ((256 : Int) < (raw.length : Int)) := by exact_mod_cast not_lt.mpr hr
  have ht : ((256 : Int) - (raw.length : Int)).toNat = 256 - raw.length := by omega
  simp [make_f77_block, h0, hlt, ht]

/-- C8.  F77-encoding the header frames the payload with a 4-byte length
prefix and suffix both encoding 256, zero-padding the payload up to 256
bytes (the assembled payload is 216 bytes, so 40 zero bytes follow it); a
payload longer than 256 bytes makes the encoder fail with the
padding-too-small error rather than truncate. -/
theorem header_encode_framing (packF packD : ℚ → List Nat)
    (hF : ∀ x, (packF x).length = 4) (hD : ∀ x, (packD x).length = 8)
    (n_part : List Nat) (mass_arr : List ℚ) (time redshift : ℚ)
    (flag_sfr flag_feedback : Int) (n_all : List Nat) (flag_cooling num_files : Int)
    (box_size omega0 omega_lambda hubble_parameter : ℚ)
    (flag_stellarage flag_metals flag_entropy_instead_u flag_doubleprecision flag_lpt_ics : Int)
    (lpt_scalingfactor : ℚ) (flag_tracer_field composition_vector_length : Int)
    (h1 : n_part.length = 6) (h2 : mass_arr.length = 6) (h3 : n_all.length = 6) :
    (∃ inner, make_header packF packD n_part mass_arr time redshift flag_sfr flag_feedback
        n_all flag_cooling num_files box_size omega0 omega_lambda hubble_parameter
        flag_stellarage flag_metals flag_entropy_instead_u flag_doubleprecision flag_lpt_ics
        lpt_scalingfactor flag_tracer_field composition_vector_length
      = .ok (packI4 256 ++ inner ++ List.replicate (256 - inner.length) 0 ++ packI4 256)
      ∧ inner.length = 216) ∧
    (∀ raw : List Nat, raw.length ≤ 256 → make_f77_block raw (some 256)
      = .ok (packI4 256 ++ raw ++ List.replicate (256 - raw.length) 0 ++ packI4 256)) ∧
    (∀ raw : List Nat, 256 < raw.length →
      make_f77_block raw (some 256) = .error .paddingTooSmall) := by
  have hsmall : ∀ raw : List Nat, raw.length ≤ 256 → make_f77_block raw (some 256)
      = .ok (packI4 256 ++ raw ++ List.replicate (256 - raw.length) 0 ++ packI4 256) :=
    f77_pad256_ok
  refine ⟨?_, hsmall, ?_⟩
  · have hlen := header_inner_length packF packD hF hD n_part mass_arr time redshift
      flag_sfr flag_feedback n_all flag_cooling num_files box_size omega0 omega_lambda
      hubble_parameter flag_stellarage flag_metals flag_entropy_instead_u
      flag_doubleprecision flag_lpt_ics lpt_scalingfactor flag_tracer_field
      composition_vector_length h1 h2 h3
    exact ⟨_, by rw [make_header, hsmall _ (by rw [hlen]; norm_num)], hlen⟩
  · intro raw hr
    have h0 : (256 : Int) ≠ 0 := by norm_num
    have hlt : (256 : Int) < (raw.length : Int) := by exact_mod_cast hr
    simp [make_f77_block, h0, hlt]

/-- Witness for C8 at concrete header arguments. -/
theorem header_encode_framing_witness :
    (∃ inner, make_header packF0 packD0 [4, 0, 0, 0, 0, 0] [0, 0, 0, 0, 0, 0] 0 0 0 0
        [4, 0, 0, 0, 0, 0] 0 1 1 1 0 70 0 0 0 0 0 1 0 0
      = .ok (packI4 256 ++ inner ++ List.replicate (256 - inner.length) 0 ++ packI4 256)
      ∧ inner.length = 216) ∧
    (∀ raw : List Nat, raw.length ≤ 256 → make_f77_block raw (some 256)
      = .ok (packI4 256 ++ raw ++ List.replicate (256 - raw.length) 0 ++ packI4 256)) ∧
    (∀ raw : List Nat, 256 < raw.length →
      make_f77_block raw (some 256) = .error .paddingTooSmall) :=
  header_encode_framing packF0 packD0 (fun _ => rfl) (fun _ => rfl)
    [4, 0, 0, 0, 0, 0] [0, 0, 0, 0, 0, 0] 0 0 0 0 [4, 0, 0, 0, 0, 0] 0 1 1 1 0 70 0 0 0 0 0 1
    0 0 (by decide) (by decide) (by decide)

/-- C1, divergence exhibited.  Writing an (empty) cell buffer with caller
box size `2.0` puts the encoding of `2.0` — the box size — into the header
bytes at offset 76 (the `time` field, specified as always `0.0`) and the
encoding of the default `1.0` into the bytes at offset 132 (the `box_size`
field, specified as caller-supplied): `write_icfile` passes `boxsize` as the
second positional argument of `make_default_header`, which is `time`. -/
theorem write_icfile_header_time_box_divergence :
    ((write_icfile packF0 packD0 [] none 2 false).map
        (fun l => ((l.getD 0 []).drop 76).take 8)) = .ok (packD0 2) ∧
    ((write_icfile packF0 packD0 [] none 2 false).map
        (fun l => ((l.getD 0 []).drop 132).take 8)) = .ok (packD0 1) ∧
    packD0 2 ≠ packD0 0 ∧ packD0 1 ≠ packD0 2 := by
  refine ⟨?_, ?_, by decide, by decide⟩ <;> (set_option maxRecDepth 10000 in rfl)

/-- Elimination form of a successful `assign_id`: the range was not exhausted,
the object was not a duplicate, and the result appends the new entry at the
current cursor and advances the cursor. -/
theorem assign_id_ok_elim {α : Type} {pyIs pyEqOp : α → α → Bool} {r r₂ : IDRange α} {o : α}
    (h : IDRange.assign_id pyIs pyEqOp r o = .ok r₂) :
    r.state ≤ r.stop ∧ r.map.any (fun kv => pyIs o kv.2 || pyEqOp o kv.2) = false ∧
    r₂ = ⟨r.start, r.stop, r.state + 1, r.map ++ [(r.state, o)]⟩ := by
  by_cases hx : r.stop < r.state
  · simp [IDRange.assign_id, hx] at h
  · rcases hdup : r.map.any (fun kv => pyIs o kv.2 || pyEqOp o kv.2) with _ | _
    · simp [IDRange.assign_id, hx, hdup] at h
      exact ⟨by omega, rfl, h.symm⟩
    · simp [IDRange.assign_id, hx, hdup] at h

/-- Reading back the component that was just replaced. -/
theorem getRange_setRange_same (d : DefaultIDRangeDispatcher) (sel : RangeSel)
    (r : IDRange Cell) : (d.setRange sel r).getRange sel = r := by
  cases sel <;> rfl

/-- Reading a component other than the one that was replaced. -/
theorem getRange_setRange_ne (d : DefaultIDRangeDispatcher) {sel sel' : RangeSel}
    (r : IDRange Cell) (h : sel' ≠ sel) :
    (d.setRange sel r).getRange sel' = d.getRange sel' := by
  cases sel <;> cases sel' <;> first | rfl | exact absurd rfl h

/-- The compound invariant only depends on the extension of the assigned set. -/
theorem DInv_congr {S T : Cell → Prop} {d : CompoundIDRange} (hST : ∀ x, S x ↔ T x)
    (h : DInv S d) : DInv T d := by
  refine ⟨h.rinv, ?_, ?_⟩
  · intro sel kv hkv
    obtain ⟨h1, h2⟩ := h.prov sel kv hkv
    exact ⟨(hST _).mp h1, h2⟩
  · intro c hc
    exact h.pres c ((hST _).mpr hc)

/-- The fresh default compound range satisfies the invariant with no cell assigned. -/
theorem DInv_init : DInv (fun _ => False) ⟨DefaultIDRangeDispatcher.make⟩ := by
  refine ⟨?_, ?_, ?_⟩
  · intro sel
    cases sel <;>
      exact ⟨rfl, rfl, Nat.le_refl _, by decide,
        by simp [DefaultIDRangeDispatcher.make, DefaultIDRangeDispatcher.getRange,
          IDRange.make],
        by simp [DefaultIDRangeDispatcher.make, DefaultIDRangeDispatcher.getRange,
          IDRange.make],
        by simp [DefaultIDRangeDispatcher.make, DefaultIDRangeDispatcher.getRange,
          IDRange.make]⟩
  · intro sel kv hkv
    cases sel <;> simp [DefaultIDRangeDispatcher.getRange, DefaultIDRangeDispatcher.make,
      IDRange.make] at hkv
  · intro c hc
    exact absurd hc (by simp)

/-- One successful compound assignment extends the invariant by the new cell. -/
theorem DInv_assign {S : Cell → Prop} {d d₂ : CompoundIDRange} {c : Cell}
    (h : DInv S d) (ha : CompoundIDRange.assign_id d c = .ok d₂) :
    DInv (fun x => x = c ∨ S x) d₂ := by
  unfold CompoundIDRange.assign_id at ha
  rcases hdisp : DefaultIDRangeDispatcher.dispatch c with e | sel
  · rw [hdisp] at ha; simp at ha
  · rw [hdisp] at ha
    dsimp only at ha
    rcases hsub : (d.dispatcher.getRange sel).assign_id cellIs cellIs c with e | sub
    · rw [hsub] at ha; simp at ha
    · rw [hsub] at ha
      simp only [Except.ok.injEq] at ha
      obtain ⟨hle, hdup, hsubeq⟩ := assign_id_ok_elim hsub
      subst hsubeq
      subst ha
      have hfresh : ∀ kv ∈ (d.dispatcher.getRange sel).map, c.oid ≠ kv.2.oid := by
        intro kv hkv
        have := List.any_eq_false.mp hdup kv hkv
        simp [cellIs] at this
        exact this
      have hrs := h.rinv sel
      refine ⟨?_, ?_, ?_⟩
      · intro sel'
        by_cases hsel : sel' = sel
        · subst hsel
          rw [getRange_setRange_same]
          refine ⟨hrs.hstart, hrs.hstop, Nat.le_succ_of_le hrs.hlo, by
              dsimp only; omega, ?_, ?_, ?_⟩
          · intro kv hkv
            rcases List.mem_append.mp hkv with hold | hnew
            · have := hrs.hkeys kv hold
              exact ⟨this.1, Nat.lt_succ_of_lt this.2⟩
            · simp at hnew
              subst hnew
              exact ⟨hrs.hlo, Nat.lt_succ_self _⟩
          · simp only [List.map_append, List.map_cons, List.map_nil]
            rw [List.nodup_append]
            refine ⟨hrs.hkeysN, List.nodup_singleton _, ?_⟩
            intro k hk hk'
            simp at hk'
            obtain ⟨kv, hkv, hfst⟩ := List.mem_map.mp hk
            have := (hrs.hkeys kv hkv).2
            omega
          · simp only [List.map_append, List.map_cons, List.map_nil]
            rw [List.nodup_append]
            refine ⟨hrs.hoidsN, List.nodup_singleton _, ?_⟩
            intro k hk hk'
            simp at hk'
            obtain ⟨kv, hkv, hoid⟩ := List.mem_map.mp hk
            exact hfresh kv hkv (by rw [← hk', ← hoid])
        · rw [getRange_setRange_ne _ _ hsel]
          exact h.rinv sel'
      · intro sel' kv hkv
        by_cases hsel : sel' = sel
        · subst hsel
          rw [getRange_setRange_same] at hkv
          rcases List.mem_append.mp hkv with hold | hnew
          · obtain ⟨h1, h2⟩ := h.prov sel' kv hold
            exact ⟨Or.inr h1, h2⟩
          · simp at hnew
            subst hnew
            exact ⟨Or.inl rfl, hdisp⟩
        · rw [getRange_setRange_ne _ _ hsel] at hkv
          obtain ⟨h1, h2⟩ := h.prov sel' kv hkv
          exact ⟨Or.inr h1, h2⟩
      · intro x hx
        rcases hx with hx | hx
        · subst hx
          refine ⟨sel, hdisp, ⟨(d.dispatcher.getRange sel).state, x⟩, ?_, rfl⟩
          rw [getRange_setRange_same]
          exact List.mem_append_right _ (by simp)
        · obtain ⟨sel₀, hd₀, kv₀, hm₀, ho₀⟩ := h.pres x hx
          refine ⟨sel₀, hd₀, kv₀, ?_, ho₀⟩
          by_cases hsel : sel₀ = sel
          · subst hsel
            rw [getRange_setRange_same]
            exact List.mem_append_left _ hm₀
          · rw [getRange_setRange_ne _ _ hsel]
            exact hm₀

/-- The assignment loop preserves the invariant, accumulating the consumed cells. -/
theorem DInv_assignAll : ∀ (cs : List Cell) {S : Cell → Prop} {d d₂ : CompoundIDRange},
    DInv S d → assignAll d cs = .ok d₂ → DInv (fun x => x ∈ cs ∨ S x) d₂ := by
  intro cs
  induction cs with
  | nil =>
    intro S d d₂ h hok
    simp only [assignAll, Except.ok.injEq] at hok
    subst hok
    exact DInv_congr (fun x => by simp) h
  | cons c cs ih =>
    intro S d d₂ h hok
    unfold assignAll at hok
    rcases hstep : CompoundIDRange.assign_id d c with e | dm
    · rw [hstep] at hok; simp at hok
    · rw [hstep] at hok
      have h₃ := ih (DInv_assign h hstep) hok
      refine DInv_congr (fun x => ?_) h₃
      simp only [List.mem_cons]
      tauto

/-- A range holding an entry with the object's identity reports some held key. -/
theorem range_get_id_some {r : IDRange Cell} {c : Cell}
    (h : ∃ kv ∈ r.map, kv.2.oid = c.oid) :
    ∃ kv ∈ r.map, kv.2.oid = c.oid ∧ IDRange.get_id cellIs r c = some kv.1 := by
  unfold IDRange.get_id
  have hsome : (r.map.find? (fun kv => cellIs kv.2 c)).isSome := by
    rw [List.find?_isSome]
    obtain ⟨kv, hm, ho⟩ := h
    exact ⟨kv, hm, by simp [cellIs, ho]⟩
  obtain ⟨kv, hfind⟩ := Option.isSome_iff_exists.mp hsome
  have hmem := List.mem_of_find?_eq_some hfind
  have hp := List.find?_some hfind
  simp only [cellIs, beq_iff_eq] at hp
  exact ⟨kv, hmem, hp, by rw [hfind]; rfl⟩

/-- A range holding no entry with the object's identity reports nothing. -/
theorem range_get_id_none {r : IDRange Cell} {c : Cell}
    (h : ∀ kv ∈ r.map, kv.2.oid ≠ c.oid) : IDRange.get_id cellIs r c = none := by
  unfold IDRange.get_id
  rw [List.find?_eq_none.mpr]
  · rfl
  · intro kv hkv
    simp only [cellIs, beq_iff_eq]
    exact h kv hkv

/-- Under the invariant and Python identity semantics (equal identities mean
the same object), each assigned cell's compound lookup returns a key held in
the range its category dispatches to. -/
theorem compound_get_id_spec {cells : List Cell} {d : CompoundIDRange}
    (hid : ∀ c ∈ cells, ∀ c' ∈ cells, c.oid = c'.oid → c = c')
    (h : DInv (fun x => x ∈ cells) d) {c : Cell} (hc : c ∈ cells) :
    ∃ sel, DefaultIDRangeDispatcher.dispatch c = .ok sel ∧
      ∃ kv ∈ (d.dispatcher.getRange sel).map, kv.2.oid = c.oid ∧
        CompoundIDRange.get_id d c = some kv.1 := by
  obtain ⟨sel, hdisp, kv₁, hm₁, ho₁⟩ := h.pres c hc
  have hcross : ∀ sel', sel' ≠ sel →
      ∀ kv ∈ (d.dispatcher.getRange sel').map, kv.2.oid ≠ c.oid := by
    intro sel' hne kv hkv heq
    obtain ⟨hmemc, hdisp'⟩ := h.prov sel' kv hkv
    have hkvc : kv.2 = c := hid kv.2 hmemc c hc heq
    rw [hkvc, hdisp] at hdisp'
    exact hne (Except.ok.inj hdisp').symm
  obtain ⟨kv₀, hm₀, ho₀, hg₀⟩ := range_get_id_some ⟨kv₁, hm₁, ho₁⟩
  refine ⟨sel, hdisp, kv₀, hm₀, ho₀, ?_⟩
  unfold CompoundIDRange.get_id
  cases sel with
  | standard =>
    have : IDRange.get_id cellIs d.dispatcher.standard_range c = some kv₀.1 := hg₀
    rw [this]
  | solid =>
    have h1 : IDRange.get_id cellIs d.dispatcher.standard_range c = none :=
      range_get_id_none (hcross .standard (by simp))
    have h2 : IDRange.get_id cellIs d.dispatcher.solid_range c = some kv₀.1 := hg₀
    rw [h1, h2]
  | solidAdjacent =>
    have h1 : IDRange.get_id cellIs d.dispatcher.standard_range c = none :=
      range_get_id_none (hcross .standard (by simp))
    have h2 : IDRange.get_id cellIs d.dispatcher.solid_range c = none :=
      range_get_id_none (hcross .solid (by simp))
    have h3 : IDRange.get_id cellIs d.dispatcher.solid_adjacent_range c = some kv₀.1 := hg₀
    rw [h1, h2, h3]

/-- A key held by a component range lies inside that component's band. -/
theorem held_key_in_band {d : CompoundIDRange} {sel : RangeSel} {kv : Nat × Cell}
    (hr : RInv sel (d.dispatcher.getRange sel)) (hm : kv ∈ (d.dispatcher.getRange sel).map) :
    bandLo sel ≤ kv.1 ∧ kv.1 ≤ bandHi sel := by
  have hk := hr.hkeys kv hm
  have h1 := hr.hstart
  have h2 := hr.hstop
  have h3 := hr.hhi
  omega

/-- The three default bands are pairwise disjoint: a key determines its band. -/
theorem band_determines_sel {sel₁ sel₂ : RangeSel} {k : Nat}
    (h₁ : bandLo sel₁ ≤ k ∧ k ≤ bandHi sel₁) (h₂ : bandLo sel₂ ≤ k ∧ k ≤ bandHi sel₂) :
    sel₁ = sel₂ := by
  cases sel₁ <;> cases sel₂ <;> simp [bandLo, bandHi] at h₁ h₂ ⊢ <;> omega

/-- C3.  After default ID assignment of any cell sequence (no two distinct
list entries aliasing one identity), every solid cell's ID lies in
`40000000..49999999`, every solid-adjacent cell's in `30000000..39999999`,
and every normal or nbody cell's in `1..29999999`. -/
theorem default_dispatch_category_bands (cells : List Cell)
    (arg : Option CompoundIDRange) (d : CompoundIDRange)
    (hid : ∀ c ∈ cells, ∀ c' ∈ cells, c.oid = c'.oid → c = c')
    (hok : assign_ids cells arg = .ok d) :
    ∀ c ∈ cells, ∃ n, CompoundIDRange.get_id d c = some n ∧
      (c.category = "solid" → 40000000 ≤ n ∧ n ≤ 49999999) ∧
      (c.category = "solid_adjacent" → 30000000 ≤ n ∧ n ≤ 39999999) ∧
      (c.category = "normal" ∨ c.category = "nbody" → 1 ≤ n ∧ n ≤ 29999999) := by
  have hinv : DInv (fun x => x ∈ cells) d :=
    DInv_congr (fun x => by simp) (DInv_assignAll cells DInv_init hok)
  intro c hc
  obtain ⟨sel, hdisp, kv, hm, ho, hg⟩ := compound_get_id_spec hid hinv hc
  have hband := held_key_in_band (hinv.rinv sel) hm
  refine ⟨kv.1, hg, ?_, ?_, ?_⟩
  · intro hcat
    have hsel : sel = .solid := by
      unfold DefaultIDRangeDispatcher.dispatch at hdisp
      rw [hcat] at hdisp
      simpa using (Except.ok.inj hdisp).symm
    subst hsel
    simpa [bandLo, bandHi] using hband
  · intro hcat
    have hsel : sel = .solidAdjacent := by
      unfold DefaultIDRangeDispatcher.dispatch at hdisp
      rw [hcat] at hdisp
      simpa using (Except.ok.inj hdisp).symm
    subst hsel
    simpa [bandLo, bandHi] using hband
  · intro hcat
    have hsel : sel = .standard := by
      unfold DefaultIDRangeDispatcher.dispatch at hdisp
      rcases hcat with hcat | hcat <;> rw [hcat] at hdisp <;>
        simpa using (Except.ok.inj hdisp).symm
    subst hsel
    simpa [bandLo, bandHi] using hband

/-- Witness for C3: one solid and one normal cell through default assignment. -/
theorem default_dispatch_category_bands_witness :
    (∃ n, CompoundIDRange.get_id compoundW cellSolidW = some n ∧
      (cellSolidW.category = "solid" → 40000000 ≤ n ∧ n ≤ 49999999) ∧
      (cellSolidW.category = "solid_adjacent" → 30000000 ≤ n ∧ n ≤ 39999999) ∧
      (cellSolidW.category = "normal" ∨ cellSolidW.category = "nbody" →
        1 ≤ n ∧ n ≤ 29999999)) ∧
    (∃ n, CompoundIDRange.get_id compoundW cellNormalW = some n ∧
      (cellNormalW.category = "solid" → 40000000 ≤ n ∧ n ≤ 49999999) ∧
      (cellNormalW.category = "solid_adjacent" → 30000000 ≤ n ∧ n ≤ 39999999) ∧
      (cellNormalW.category = "normal" ∨ cellNormalW.category = "nbody" →
        1 ≤ n ∧ n ≤ 29999999)) := by
  have h := default_dispatch_category_bands [cellSolidW, cellNormalW] none compoundW
    (by decide) (by rfl)
  exact ⟨h cellSolidW (by simp), h cellNormalW (by simp)⟩

/-- C5.  Default ID assignment never yields identifier zero, and distinct
cells (distinct identities) never share an identifier. -/
theorem assigned_ids_unique_and_nonzero (cells : List Cell)
    (arg : Option CompoundIDRange) (d : CompoundIDRange)
    (hid : ∀ c ∈ cells, ∀ c' ∈ cells, c.oid = c'.oid → c = c')
    (hok : assign_ids cells arg = .ok d) :
    (∀ c ∈ cells, ∃ n, CompoundIDRange.get_id d c = some n ∧ n ≠ 0) ∧
    (∀ c₁ ∈ cells, ∀ c₂ ∈ cells, c₁.oid ≠ c₂.oid →
      CompoundIDRange.get_id d c₁ ≠ CompoundIDRange.get_id d c₂) := by
  have hinv : DInv (fun x => x ∈ cells) d :=
    DInv_congr (fun x => by simp) (DInv_assignAll cells DInv_init hok)
  constructor
  · intro c hc
    obtain ⟨sel, _, kv, hm, _, hg⟩ := compound_get_id_spec hid hinv hc
    have hband := held_key_in_band (hinv.rinv sel) hm
    refine ⟨kv.1, hg, ?_⟩
    cases sel <;> simp [bandLo, bandHi] at hband <;> omega
  · intro c₁ hc₁ c₂ hc₂ hne heq
    obtain ⟨sel₁, _, kv₁, hm₁, ho₁, hg₁⟩ := compound_get_id_spec hid hinv hc₁
    obtain ⟨sel₂, _, kv₂, hm₂, ho₂, hg₂⟩ := compound_get_id_spec hid hinv hc₂
    rw [hg₁, hg₂] at heq
    have hkey : kv₁.1 = kv₂.1 := Option.some.inj heq
    have hsel : sel₁ = sel₂ :=
      band_determines_sel (held_key_in_band (hinv.rinv sel₁) hm₁)
        (hkey ▸ held_key_in_band (hinv.rinv sel₂) hm₂)
    subst hsel
    have hkv : kv₁ = kv₂ :=
      List.inj_on_of_nodup_map (hinv.rinv sel₁).hkeysN hm₁ hm₂ hkey
    exact hne (by rw [← ho₁, hkv, ho₂])

/-- Witness for C5 on the same concrete two-cell assignment. -/
theorem assigned_ids_unique_and_nonzero_witness :
    (∀ c ∈ [cellSolidW, cellNormalW],
      ∃ n, CompoundIDRange.get_id compoundW c = some n ∧ n ≠ 0) ∧
    (∀ c₁ ∈ [cellSolidW, cellNormalW], ∀ c₂ ∈ [cellSolidW, cellNormalW],
      c₁.oid ≠ c₂.oid →
      CompoundIDRange.get_id compoundW c₁ ≠ CompoundIDRange.get_id compoundW c₂) :=
  assigned_ids_unique_and_nonzero [cellSolidW, cellNormalW] none compoundW
    (by decide) (by rfl)

/-- Inserting a key-0 element into a run of key-0 elements followed by a run
of key-4 elements places it exactly between the runs. -/
theorem stableInsert_key0 (key : α → Nat) (x : α) (hx : key x = 0) :
    ∀ (acc0 acc4 : List α), (∀ y ∈ acc0, key y = 0) → (∀ y ∈ acc4, key y = 4) →
      stableInsert key (acc0 ++ acc4) x = acc0 ++ x :: acc4 := by
  intro acc0
  induction acc0 with
  | nil =>
    intro acc4 _ h4
    cases acc4 with
    | nil => rfl
    | cons b bs =>
      have hc : ¬ (key b ≤ key x) := by rw [h4 b (by simp), hx]; omega
      simp only [List.nil_append, stableInsert, if_neg hc]
  | cons a as ih =>
    intro acc4 h0 h4
    have hc : key a ≤ key x := by rw [h0 a (by simp), hx]
    simp only [List.cons_append, stableInsert, if_pos hc, List.append_eq]
    rw [ih acc4 (fun y hy => h0 y (by simp [hy])) h4]

/-- Inserting a key-4 element into a list of key-0/key-4 elements appends it. -/
theorem stableInsert_key4 (key : α → Nat) (x : α) (hx : key x = 4) :
    ∀ (l : List α), (∀ y ∈ l, key y = 0 ∨ key y = 4) →
      stableInsert key l x = l ++ [x] := by
  intro l
  induction l with
  | nil => intro _; rfl
  | cons b bs ih =>
    intro h
    have hc : key b ≤ key x := by
      rcases h b (by simp) with h' | h' <;> (rw [h', hx]; all_goals omega)
    simp only [stableInsert, if_pos hc, List.cons_append]
    rw [ih (fun y hy => h y (by simp [hy]))]

/-- Accumulator form of the stable-sort partition: folding the insertion over
the remaining list keeps all key-0 elements (in order) ahead of all key-4
elements (in order). -/
theorem pySorted_aux (key : α → Nat) :
    ∀ (l : List α), (∀ x ∈ l, key x = 0 ∨ key x = 4) →
      ∀ (acc0 acc4 : List α), (∀ y ∈ acc0, key y = 0) → (∀ y ∈ acc4, key y = 4) →
        List.foldl (stableInsert key) (acc0 ++ acc4) l
          = acc0 ++ l.filter (fun x => key x == 0)
            ++ (acc4 ++ l.filter (fun x => key x == 4)) := by
  intro l
  induction l with
  | nil => intro _ acc0 acc4 _ _; simp
  | cons x xs ih =>
    intro h acc0 acc4 h0 h4
    rcases h x (by simp) with hx | hx
    · rw [List.foldl_cons, stableInsert_key0 key x hx acc0 acc4 h0 h4]
      have : acc0 ++ x :: acc4 = (acc0 ++ [x]) ++ acc4 := by simp
      rw [this, ih (fun y hy => h y (by simp [hy])) (acc0 ++ [x]) acc4
        (by intro y hy; rcases List.mem_append.mp hy with hy | hy
            · exact h0 y hy
            · simp at hy; subst hy; exact hx) h4]
      simp [List.filter_cons, hx]
    · rw [List.foldl_cons, stableInsert_key4 key x hx (acc0 ++ acc4)
        (by intro y hy; rcases List.mem_append.mp hy with hy | hy
            · exact Or.inl (h0 y hy)
            · exact Or.inr (h4 y hy))]
      have : (acc0 ++ acc4) ++ [x] = acc0 ++ (acc4 ++ [x]) := by simp
      rw [this, ih (fun y hy => h y (by simp [hy])) acc0 (acc4 ++ [x]) h0
        (by intro y hy; rcases List.mem_append.mp hy with hy | hy
            · exact h4 y hy
            · simp at hy; subst hy; exact hx)]
      simp [List.filter_cons, hx]

/-- Python's stable sort on a 0/4-valued key is the type-0 run (in original
order) followed by the type-4 run (in original order). -/
theorem pySorted_partition (key : α → Nat) (l : List α)
    (h : ∀ x ∈ l, key x = 0 ∨ key x = 4) :
    pySorted key l = l.filter (fun x => key x == 0) ++ l.filter (fun x => key x == 4) := by
  have := pySorted_aux key l h [] [] (by simp) (by simp)
  simpa [pySorted] using this

/-- Accumulator form of the per-type count over a 0/4-typed cell list. -/
theorem count_types_aux :
    ∀ (cs : List Cell) (a b : Nat), (∀ c ∈ cs, typeKey c = 0 ∨ typeKey c = 4) →
      List.foldl (fun acc c => acc.set (typeKey c) (acc.getD (typeKey c) 0 + 1))
          [a, 0, 0, 0, b, 0] cs
        = [a + (cs.filter (fun c => typeKey c == 0)).length, 0, 0, 0,
           b + (cs.filter (fun c => typeKey c == 4)).length, 0] := by
  intro cs
  induction cs with
  | nil => intro a b _; simp
  | cons c cs ih =>
    intro a b h
    rcases h c (by simp) with hc | hc
    · rw [List.foldl_cons]
      simp only [hc]
      rw [show (List.set [a, 0, 0, 0, b, 0] 0 ((List.getD [a, 0, 0, 0, b, 0] 0 0) + 1))
            = [a + 1, 0, 0, 0, b, 0] from rfl,
        ih (a + 1) b (fun z hz => h z (by simp [hz]))]
      simp [List.filter_cons, hc]; omega
    · rw [List.foldl_cons]
      simp only [hc]
      rw [show (List.set [a, 0, 0, 0, b, 0] 4 ((List.getD [a, 0, 0, 0, b, 0] 4 0) + 1))
            = [a, 0, 0, 0, b + 1, 0] from rfl,
        ih a (b + 1) (fun z hz => h z (by simp [hz]))]
      simp [List.filter_cons, hc]; omega

/-- The per-type counts of a 0/4-typed cell list: slot 0 and slot 4 carry the
two run lengths, all other slots are zero. -/
theorem count_types_eq (cs : List Cell) (h : ∀ c ∈ cs, typeKey c = 0 ∨ typeKey c = 4) :
    count_types cs = [(cs.filter (fun c => typeKey c == 0)).length, 0, 0, 0,
      (cs.filter (fun c => typeKey c == 4)).length, 0] := by
  have := count_types_aux cs 0 0 h
  simpa [count_types] using this

/-- Re-filtering the sorted buffer for type 0 recovers the type-0 run. -/
theorem filter_sortedByType_0 (cs : List Cell) :
    (sortedByType cs).filter (fun c => typeKey c == 0)
      = cs.filter (fun c => typeKey c == 0) := by
  unfold sortedByType
  rw [List.filter_append]
  have h1 : (cs.filter (fun c => typeKey c == 0)).filter (fun c => typeKey c == 0)
      = cs.filter (fun c => typeKey c == 0) :=
    List.filter_eq_self.mpr (fun c hc => (List.mem_filter.mp hc).2)
  have h2 : (cs.filter (fun c => typeKey c == 4)).filter (fun c => typeKey c == 0) = [] := by
    rw [List.filter_eq_nil_iff]
    intro c hc
    have := (List.mem_filter.mp hc).2
    simp at this ⊢
    omega
  rw [h1, h2, List.append_nil]

/-- Re-filtering the sorted buffer for type 4 recovers the type-4 run. -/
theorem filter_sortedByType_4 (cs : List Cell) :
    (sortedByType cs).filter (fun c => typeKey c == 4)
      = cs.filter (fun c => typeKey c == 4) := by
  unfold sortedByType
  rw [List.filter_append]
  have h1 : (cs.filter (fun c => typeKey c == 0)).filter (fun c => typeKey c == 4) = [] := by
    rw [List.filter_eq_nil_iff]
    intro c hc
    have := (List.mem_filter.mp hc).2
    simp at this ⊢
    omega
  have h2 : (cs.filter (fun c => typeKey c == 4)).filter (fun c => typeKey c == 4)
      = cs.filter (fun c => typeKey c == 4) :=
    List.filter_eq_self.mpr (fun c hc => (List.mem_filter.mp hc).2)
  rw [h1, h2, List.nil_append]

/-- The sorted buffer draws from the original cell list. -/
theorem mem_sortedByType {c : Cell} {cs : List Cell} (h : c ∈ sortedByType cs) : c ∈ cs := by
  unfold sortedByType at h
  rcases List.mem_append.mp h with h | h <;> exact (List.mem_filter.mp h).1

/-- An element-wise fallible loop with no failing element succeeds. -/
theorem exceptMap_ok_of_forall {f : α → Except PyError β} :
    ∀ {l : List α}, (∀ x ∈ l, ∃ y, f x = .ok y) → ∃ ys, exceptMap f l = .ok ys := by
  intro l
  induction l with
  | nil => intro _; exact ⟨[], rfl⟩
  | cons x xs ih =>
    intro h
    obtain ⟨y, hy⟩ := h x (by simp)
    obtain ⟨ys, hys⟩ := ih (fun z hz => h z (by simp [hz]))
    exact ⟨y :: ys, by simp [exceptMap, hy, hys]⟩

/-- An element-wise fallible loop whose elements all succeed with known
results maps over the list. -/
theorem exceptMap_ok_map {f : α → Except PyError β} {g : α → β} :
    ∀ {l : List α}, (∀ x ∈ l, f x = .ok (g x)) → exceptMap f l = .ok (l.map g) := by
  intro l
  induction l with
  | nil => intro _; rfl
  | cons x xs ih =>
    intro h
    have hx := h x (by simp)
    have hxs := ih (fun z hz => h z (by simp [hz]))
    simp [exceptMap, hx, hxs]

/-- Packing the IDs of cells that all hold an in-range assignment succeeds and
encodes their 4-byte little-endian IDs in buffer order. -/
theorem exceptMap_pack_id (r : CompoundIDRange) :
    ∀ (cs : List Cell),
      (∀ c ∈ cs, ∃ n, CompoundIDRange.get_id r c = some n ∧ n < 4294967296) →
      exceptMap pack_id (iterate_ids cs r)
        = .ok (cs.map (fun c => bytesLE 4 ((CompoundIDRange.get_id r c).getD 0))) := by
  intro cs
  induction cs with
  | nil => intro _; rfl
  | cons c cs ih =>
    intro h
    obtain ⟨n, hn, hlt⟩ := h c (by simp)
    have hrest := ih (fun z hz => h z (by simp [hz]))
    simp only [iterate_ids, List.map_cons] at hrest ⊢
    simp [exceptMap, hn, pack_id, packU4, hlt, hrest]

/-- A body block whose per-datum packs all succeed wraps their concatenation. -/
theorem make_body_eq_ok {pk : α → Except PyError (List Nat)} {data : List α}
    {ys : List (List Nat)} (h : exceptMap pk data = .ok ys) :
    make_body pk data = .ok (f77Plain ys.flatten) := by
  unfold make_body
  rw [h]
  rfl

/-- The identifier body block packs `get_id` results in buffer order. -/
theorem make_body_ids_eq (r : CompoundIDRange) (cs : List Cell)
    (h : ∀ c ∈ cs, ∃ n, CompoundIDRange.get_id r c = some n ∧ n < 4294967296) :
    make_body_ids (iterate_ids cs r)
      = .ok (f77Plain ((cs.map
          (fun c => bytesLE 4 ((CompoundIDRange.get_id r c).getD 0))).flatten)) := by
  unfold make_body_ids
  rw [exceptMap_pack_id r cs h]
  rfl

/-- The default header encodes successfully whenever the count list has the
six format slots and the packers have IEEE widths. -/
theorem make_default_header_ok (packF packD : ℚ → List Nat)
    (hF : ∀ x, (packF x).length = 4) (hD : ∀ x, (packD x).length = 8)
    (n_types : List Nat) (h6 : n_types.length = 6) (time redshift : ℚ)
    (flag_sfr flag_feedback flag_cooling : Int)
    (box_size omega0 omega_lambda hubble_parameter : ℚ)
    (flag_stellarage flag_metals flag_entropy_instead_u flag_doubleprecision flag_lpt_ics : Int)
    (lpt_scalingfactor : ℚ) (flag_tracer_field composition_vector_length : Int) :
    ∃ hd, make_default_header packF packD n_types time redshift flag_sfr flag_feedback
        flag_cooling box_size omega0 omega_lambda hubble_parameter flag_stellarage
        flag_metals flag_entropy_instead_u flag_doubleprecision flag_lpt_ics
        lpt_scalingfactor flag_tracer_field composition_vector_length = .ok hd := by
  unfold make_default_header make_header
  have hlen := header_inner_length packF packD hF hD n_types (List.replicate 6 0) time
    redshift flag_sfr flag_feedback n_types flag_cooling 1 box_size omega0 omega_lambda
    hubble_parameter flag_stellarage flag_metals flag_entropy_instead_u flag_doubleprecision
    flag_lpt_ics lpt_scalingfactor flag_tracer_field composition_vector_length h6
    (by simp) h6
  exact ⟨_, f77_pad256_ok _ (by rw [hlen]; norm_num)⟩

/-- C4.  `write_icfile` stable-sorts the buffer by particle type (the type-0
run precedes the type-4 run, each in original relative order) and emits
exactly six F77-wrapped body blocks after the header, in order: positions
(3 scalars of the selected float width per cell, all sorted cells),
velocities (likewise), identifiers (one 4-byte unsigned int per cell, in
buffer order), densities (one scalar per cell, all sorted cells), internal
energies (one scalar per cell, only the type-0 run), and densities again
(only the type-0 run).  The hypotheses are the source's own success
conditions: valid categories, 3-component position and velocity vectors
(`struct.pack('fff'/'ddd')` raises otherwise), and assigned IDs below `2^32`
(`struct.pack('I')` raises otherwise). -/
theorem write_icfile_block_structure (packF packD : ℚ → List Nat)
    (hF : ∀ x, (packF x).length = 4) (hD : ∀ x, (packD x).length = 8)
    (cells : List Cell) (r : CompoundIDRange) (boxsize : ℚ) (double : Bool)
    (hvalid : ∀ c ∈ cells, get_type_of_cell c = .ok 0 ∨ get_type_of_cell c = .ok 4)
    (hvec : ∀ c ∈ cells, c.position.values.length = 3 ∧ c.velocity.values.length = 3)
    (hids : ∀ c ∈ cells, ∃ n, CompoundIDRange.get_id r c = some n ∧ n < 4294967296) :
    pySorted typeKey cells = sortedByType cells ∧
    (∀ c ∈ cells,
      ((c.position.values.map (if double then packD else packF)).flatten).length
        = 3 * (if double then 8 else 4) ∧
      ((c.velocity.values.map (if double then packD else packF)).flatten).length
        = 3 * (if double then 8 else 4) ∧
      (bytesLE 4 ((CompoundIDRange.get_id r c).getD 0)).length = 4) ∧
    ∃ header, write_icfile packF packD cells (some r) boxsize double = .ok
      [header,
       f77Plain (((sortedByType cells).map
         (fun c => (c.position.values.map (if double then packD else packF)).flatten)).flatten),
       f77Plain (((sortedByType cells).map
         (fun c => (c.velocity.values.map (if double then packD else packF)).flatten)).flatten),
       f77Plain (((sortedByType cells).map
         (fun c => bytesLE 4 ((CompoundIDRange.get_id r c).getD 0))).flatten),
       f77Plain (((sortedByType cells).map
         (fun c => (if double then packD else packF) c.density)).flatten),
       f77Plain (((cells.filter (fun c => typeKey c == 0)).map
         (fun c => (if double then packD else packF) c.internal_energy)).flatten),
       f77Plain (((cells.filter (fun c => typeKey c == 0)).map
         (fun c => (if double then packD else packF) c.density)).flatten)] := by
  have hkeys : ∀ c ∈ cells, typeKey c = 0 ∨ typeKey c = 4 := by
    intro c hc
    rcases hvalid c hc with h | h
    · exact Or.inl (by simp [typeKey, h])
    · exact Or.inr (by simp [typeKey, h])
  have hsort : pySorted typeKey cells = sortedByType cells :=
    pySorted_partition typeKey cells hkeys
  have hw : ∀ x : ℚ, ((if double then packD else packF) x).length
      = (if double then 8 else 4) := by
    intro x
    cases double <;> simp [hF, hD]
  have hsizes : ∀ c ∈ cells,
      ((c.position.values.map (if double then packD else packF)).flatten).length
        = 3 * (if double then 8 else 4) ∧
      ((c.velocity.values.map (if double then packD else packF)).flatten).length
        = 3 * (if double then 8 else 4) ∧
      (bytesLE 4 ((CompoundIDRange.get_id r c).getD 0)).length = 4 := by
    intro c hc
    refine ⟨?_, ?_, bytesLE_length 4 _⟩
    · rw [flatten_map_length_const _ _ _ (fun x _ => hw x), (hvec c hc).1, Nat.mul_comm]
    · rw [flatten_map_length_const _ _ _ (fun x _ => hw x), (hvec c hc).2, Nat.mul_comm]
  refine ⟨hsort, hsizes, ?_⟩
  obtain ⟨ts, hts⟩ := exceptMap_ok_of_forall (f := get_type_of_cell) (l := cells)
    (fun c hc => by rcases hvalid c hc with h | h; exacts [⟨0, h⟩, ⟨4, h⟩])
  have hkeys' : ∀ c ∈ sortedByType cells, typeKey c = 0 ∨ typeKey c = 4 :=
    fun c hc => hkeys c (mem_sortedByType hc)
  have hcount : count_types (sortedByType cells)
      = [(cells.filter (fun c => typeKey c == 0)).length, 0, 0, 0,
         (cells.filter (fun c => typeKey c == 4)).length, 0] := by
    rw [count_types_eq _ hkeys', filter_sortedByType_0, filter_sortedByType_4]
  have hids' : ∀ c ∈ sortedByType cells,
      ∃ n, CompoundIDRange.get_id r c = some n ∧ n < 4294967296 :=
    fun c hc => hids c (mem_sortedByType hc)
  have hpos : exceptMap (packVec (if double then packD else packF))
      (map_quantity (sortedByType cells) Cell.position)
      = .ok ((map_quantity (sortedByType cells) Cell.position).map
          (fun v => (v.values.map (if double then packD else packF)).flatten)) := by
    apply exceptMap_ok_map
    intro v hv
    simp only [map_quantity] at hv
    obtain ⟨c, hc, rfl⟩ := List.mem_map.mp hv
    have h3 := (hvec c (mem_sortedByType hc)).1
    simp [packVec, h3]
  have hvel : exceptMap (packVec (if double then packD else packF))
      (map_quantity (sortedByType cells) Cell.velocity)
      = .ok ((map_quantity (sortedByType cells) Cell.velocity).map
          (fun v => (v.values.map (if double then packD else packF)).flatten)) := by
    apply exceptMap_ok_map
    intro v hv
    simp only [map_quantity] at hv
    obtain ⟨c, hc, rfl⟩ := List.mem_map.mp hv
    have h3 := (hvec c (mem_sortedByType hc)).2
    simp [packVec, h3]
  have hrho : exceptMap (packScal (if double then packD else packF))
      (map_quantity (sortedByType cells) Cell.density)
      = .ok ((map_quantity (sortedByType cells) Cell.density).map
          (if double then packD else packF)) :=
    exceptMap_ok_map (fun x _ => rfl)
  have hu : exceptMap (packScal (if double then packD else packF))
      (map_quantity (cells.filter (fun c => typeKey c == 0)) Cell.internal_energy)
      = .ok ((map_quantity (cells.filter (fun c => typeKey c == 0))
          Cell.internal_energy).map (if double then packD else packF)) :=
    exceptMap_ok_map (fun x _ => rfl)
  have hrho2 : exceptMap (packScal (if double then packD else packF))
      (map_quantity (cells.filter (fun c => typeKey c == 0)) Cell.density)
      = .ok ((map_quantity (cells.filter (fun c => typeKey c == 0))
          Cell.density).map (if double then packD else packF)) :=
    exceptMap_ok_map (fun x _ => rfl)
  obtain ⟨hd, hhd⟩ := make_default_header_ok packF packD hF hD
    (count_types (sortedByType cells)) (by rw [hcount]; rfl) boxsize 0 0 0 0 1 1 0 70 0 0 0
    (if double then 1 else 0) 0 1 0 0
  refine ⟨hd, ?_⟩
  have htake : (sortedByType cells).take ((cells.filter (fun c => typeKey c == 0)).length)
      = cells.filter (fun c => typeKey c == 0) :=
    List.take_left _ _
  unfold write_icfile
  rw [hts]
  dsimp only
  rw [hsort, hhd]
  dsimp only
  rw [hcount]
  simp only [List.getD_cons_zero, htake]
  rw [make_body_ids_eq r _ hids']
  rw [make_body_eq_ok hpos, make_body_eq_ok hvel, make_body_eq_ok hrho,
    make_body_eq_ok hu, make_body_eq_ok hrho2]
  simp only [map_quantity, List.map_map]
  rfl

/-- Witness for C4: a concrete two-cell write in single precision, with
3-component vectors and in-range IDs. -/
theorem write_icfile_block_structure_witness :
    pySorted typeKey [cellSolidW, cellNormalW] = sortedByType [cellSolidW, cellNormalW] ∧
    (∀ c ∈ [cellSolidW, cellNormalW],
      ((c.position.values.map (if false then packD0 else packF0)).flatten).length
        = 3 * (if false then 8 else 4) ∧
      ((c.velocity.values.map (if false then packD0 else packF0)).flatten).length
        = 3 * (if false then 8 else 4) ∧
      (bytesLE 4 ((CompoundIDRange.get_id compoundW c).getD 0)).length = 4) ∧
    ∃ header,
      write_icfile packF0 packD0 [cellSolidW, cellNormalW] (some compoundW) 1 false = .ok
      [header,
       f77Plain (((sortedByType [cellSolidW, cellNormalW]).map
           (fun c => (c.position.values.map (if false then packD0 else packF0)).flatten)).flatten),
       f77Plain (((sortedByType [cellSolidW, cellNormalW]).map
           (fun c => (c.velocity.values.map (if false then packD0 else packF0)).flatten)).flatten),
       f77Plain (((sortedByType [cellSolidW, cellNormalW]).map
         (fun c => bytesLE 4 ((CompoundIDRange.get_id compoundW c).getD 0))).flatten),
       f77Plain (((sortedByType [cellSolidW, cellNormalW]).map
         (fun c => (if false then packD0 else packF0) c.density)).flatten),
       f77Plain ((((List.filter (fun c => typeKey c == 0) [cellSolidW, cellNormalW])).map
         (fun c => (if false then packD0 else packF0) c.internal_energy)).flatten),
       f77Plain ((((List.filter (fun c => typeKey c == 0) [cellSolidW, cellNormalW])).map
         (fun c => (if false then packD0 else packF0) c.density)).flatten)] :=
  write_icfile_block_structure packF0 packD0 (fun _ => rfl) (fun _ => rfl)
    [cellSolidW, cellNormalW] compoundW 1 false
    (by
      intro c hc
      simp only [List.mem_cons, List.not_mem_nil, or_false] at hc
      rcases hc with rfl | rfl
      · exact Or.inl rfl
      · exact Or.inl rfl)
    (by decide)
    (by
      intro c hc
      simp only [List.mem_cons, List.not_mem_nil, or_false] at hc
      rcases hc with rfl | rfl
      · exact ⟨40000000, rfl, by norm_num⟩
      · exact ⟨1, rfl, by norm_num⟩)

end Jelly
